import Mathlib

/-!
Verification of the yannopt function algebra (`yannopt/functions.py`) and
step-size policies (`yannopt/learning_rates.py`).

Dense numpy vectors and matrices are embedded as `Fin n → ℚ` and
`Matrix (Fin m) (Fin n) ℚ`; numpy float arithmetic is modelled by exact
rational arithmetic (real arithmetic where a square root occurs).
Fallible operations return `Option`/`Except`.
-/

namespace Yannopt

open Matrix

/-- Modelled from the spec: the `Function` capability set
{evaluate, gradient, hessian} of `yannopt.base.Function` (the file
`yannopt/base.py` is not part of the sources): a record holding the three
capabilities of a scalar-valued function on `ℚ^n` (spec section 4.1). -/
structure Func (n : ℕ) where
  eval : (Fin n → ℚ) → ℚ
  gradient : (Fin n → ℚ) → (Fin n → ℚ)
  hessian : (Fin n → ℚ) → Matrix (Fin n) (Fin n) ℚ

/-- The `Quadratic` class of functions.py: coefficients `A`, `b`, `c`
of `0.5 x'Ax + b'x + c`. -/
structure Quadratic (n : ℕ) where
  A : Matrix (Fin n) (Fin n) ℚ
  b : Fin n → ℚ
  c : ℚ

/-- `Quadratic.eval`: `0.5 * x.dot(A).dot(x) + b.dot(x) + c`. -/
def Quadratic.eval {n : ℕ} (q : Quadratic n) (x : Fin n → ℚ) : ℚ :=
  1/2 * (Matrix.vecMul x q.A ⬝ᵥ x) + q.b ⬝ᵥ x + q.c

/-- `Quadratic.gradient`: `A.dot(x) + b`. -/
def Quadratic.gradient {n : ℕ} (q : Quadratic n) (x : Fin n → ℚ) : Fin n → ℚ :=
  q.A.mulVec x + q.b

/-- `Quadratic.hessian`: returns `self.A`. -/
def Quadratic.hessian {n : ℕ} (q : Quadratic n) (_x : Fin n → ℚ) :
    Matrix (Fin n) (Fin n) ℚ :=
  q.A

/-- `Quadratic.solution`: `np.linalg.solve(A, -b)`.  `np.linalg.solve`
raises `LinAlgError` on a singular coefficient matrix, modelled as `none`;
on a nonsingular one it returns the unique solution, written here through
the adjugate (over a field this is exactly the matrix inverse). -/
def Quadratic.solution {n : ℕ} (q : Quadratic n) : Option (Fin n → ℚ) :=
  if q.A.det = 0 then none
  else some (((q.A.det)⁻¹ • q.A.adjugate).mulVec (-q.b))

/-- View a `Quadratic` through the `Function` capability set. -/
def Quadratic.toFunc {n : ℕ} (q : Quadratic n) : Func n :=
  ⟨q.eval, q.gradient, q.hessian⟩

/-- The `Affine` class: coefficients `A`, `b` of `Ax + b`. -/
structure Affine (m n : ℕ) where
  A : Matrix (Fin m) (Fin n) ℚ
  b : Fin m → ℚ

/-- `Affine.eval`: `A.dot(x) + b`. -/
def Affine.eval {m n : ℕ} (f : Affine m n) (x : Fin n → ℚ) : Fin m → ℚ :=
  f.A.mulVec x + f.b

/-- `Affine.gradient`: returns `self.A.T` (independent of `x`). -/
def Affine.gradient {m n : ℕ} (f : Affine m n) (_x : Fin n → ℚ) :
    Matrix (Fin n) (Fin m) ℚ :=
  f.A.transpose

/-- `Separable.eval`: `np.sum([f(x) for f in functions])`. -/
def Separable.eval {n : ℕ} (functions : List (Func n)) (x : Fin n → ℚ) : ℚ :=
  (functions.map fun f => f.eval x).sum

/-- `Separable.gradient`: `sum([f.gradient(x) for f in functions])`. -/
def Separable.gradient {n : ℕ} (functions : List (Func n)) (x : Fin n → ℚ) :
    Fin n → ℚ :=
  (functions.map fun f => f.gradient x).sum

/-- `Separable.hessian`: `sum([f.hessian(x) for f in functions])`. -/
def Separable.hessian {n : ℕ} (functions : List (Func n)) (x : Fin n → ℚ) :
    Matrix (Fin n) (Fin n) ℚ :=
  (functions.map fun f => f.hessian x).sum

/-- `Composition.gradient` (functions.py lines 231-235) specialized to one
outer and one inner function, both affine, the configuration of the claim:
`y = g(x)`; `G = np.atleast_2d(f.gradient(y).T)`;
`H = np.atleast_2d(g.gradient(x).T)`; return `drop_dimensions((G.dot(H)).T)`.
`drop_dimensions` lives in `yannopt/utils.py`, which is not part of the
sources; modelled from the spec it only removes singleton leading/trailing
dimensions, so on this fixed-shape embedding (no singleton dimension when
`n, p ≥ 2`) it is the identity and is omitted. -/
def Composition.gradient {p m n : ℕ} (outer : Affine p m) (inner : Affine m n)
    (x : Fin n → ℚ) : Matrix (Fin n) (Fin p) ℚ :=
  let y := inner.eval x
  let G := (outer.gradient y).transpose
  let H := (inner.gradient x).transpose
  (G * H).transpose

/-- `Composition.hessian`: `raise NotImplementedError("TODO")`. -/
def Composition.hessian {p m n : ℕ} (_outer : Affine p m) (_inner : Affine m n)
    (_x : Fin n → ℚ) : Except String (Matrix (Fin n) (Fin n) ℚ) :=
  Except.error "TODO"

/-- `SquaredL2Norm.__init__` with both `A` and `b` supplied: constructs the
underlying `Quadratic` with `Q = A.T.dot(A)`, `r = -b.dot(A)`,
`s = 0.5 * b.dot(b)`. -/
def SquaredL2Norm {m n : ℕ} (A : Matrix (Fin m) (Fin n) ℚ) (b : Fin m → ℚ) :
    Quadratic n :=
  { A := A.transpose * A
    b := -(Matrix.vecMul b A)
    c := 1/2 * (b ⬝ᵥ b) }

/-- `L1Norm.eval`: `np.sum(np.abs(x))`. -/
def L1Norm.eval {n : ℕ} (x : Fin n → ℚ) : ℚ :=
  ∑ i, |x i|

/-- `L1Norm.prox`: `np.maximum(x - eta, 0) - np.maximum(-x - eta, 0)`,
elementwise. -/
def L1Norm.prox {n : ℕ} (x : Fin n → ℚ) (eta : ℚ) : Fin n → ℚ :=
  fun i => max (x i - eta) 0 - max (-x i - eta) 0

/-- `L1Norm.hessian`: `raise NotImplementedError("Hessian not defined")`. -/
def L1Norm.hessian {n : ℕ} (_x : Fin n → ℚ) :
    Except String (Matrix (Fin n) (Fin n) ℚ) :=
  Except.error "Hessian not defined"

/-- `quadratic_approx(f, x)`: `c = f(x)`, `g = f.gradient(x)`,
`H = f.hessian(x)`; returns `Quadratic(H, g, c)`. -/
def quadratic_approx {n : ℕ} (f : Func n) (x : Fin n → ℚ) : Quadratic n :=
  { A := f.hessian x, b := f.gradient x, c := f.eval x }

/-- Squared residual of the linear system `M y = c`: the quantity
`np.linalg.lstsq(M, c)` minimizes over `y`. -/
def residualSq {n : ℕ} (M : Matrix (Fin n) (Fin n) ℚ) (c y : Fin n → ℚ) : ℚ :=
  (M.mulVec y - c) ⬝ᵥ (M.mulVec y - c)

/-- Over `ℚ` a least-squares minimizer of `‖M y - c‖²` always exists: the
normal equations `MᵀM y = Mᵀ c` are solvable because
`range (MᵀM) = range Mᵀ`, and any normal solution minimizes the residual. -/
def lstsq_minimizer_exists {n : ℕ} (M : Matrix (Fin n) (Fin n) ℚ)
    (c : Fin n → ℚ) : ∃ y, ∀ z, residualSq M c y ≤ residualSq M c z := by
  have hle : LinearMap.range (M.transpose * M).mulVecLin ≤
      LinearMap.range (M.transpose).mulVecLin := by
    rintro v ⟨y, rfl⟩
    exact ⟨M.mulVec y, by simp [Matrix.mulVecLin_apply, Matrix.mulVec_mulVec]⟩
  have hfr : Module.finrank ℚ (LinearMap.range (M.transpose).mulVecLin) ≤
      Module.finrank ℚ (LinearMap.range (M.transpose * M).mulVecLin) := by
    rw [show Module.finrank ℚ (LinearMap.range (M.transpose).mulVecLin) =
          (M.transpose).rank from rfl,
        show Module.finrank ℚ (LinearMap.range (M.transpose * M).mulVecLin) =
          (M.transpose * M).rank from rfl,
        Matrix.rank_transpose_mul_self, Matrix.rank_transpose]
  have heq := Submodule.eq_of_le_of_finrank_le hle hfr
  have hmem : M.transpose.mulVec c ∈
      LinearMap.range (M.transpose * M).mulVecLin := by
    rw [heq]
    exact ⟨c, Matrix.mulVecLin_apply _ _⟩
  obtain ⟨y, hy⟩ := hmem
  rw [Matrix.mulVecLin_apply] at hy
  have key : M.transpose.mulVec (M.mulVec y - c) = 0 := by
    rw [Matrix.mulVec_sub, Matrix.mulVec_mulVec, hy, sub_self]
  refine ⟨y, fun z => ?_⟩
  have hdecomp : M.mulVec z - c = (M.mulVec y - c) + M.mulVec (z - y) := by
    rw [Matrix.mulVec_sub]
    abel
  have hcross : (M.mulVec y - c) ⬝ᵥ M.mulVec (z - y) = 0 := by
    rw [Matrix.dotProduct_mulVec, ← Matrix.mulVec_transpose, key,
      Matrix.zero_dotProduct]
  have hcross2 : M.mulVec (z - y) ⬝ᵥ (M.mulVec y - c) = 0 := by
    rw [Matrix.dotProduct_comm, hcross]
  have hnonneg : (0 : ℚ) ≤ M.mulVec (z - y) ⬝ᵥ M.mulVec (z - y) :=
    Finset.sum_nonneg fun i _ => mul_self_nonneg _
  have hexpand : residualSq M c z =
      residualSq M c y + M.mulVec (z - y) ⬝ᵥ M.mulVec (z - y) := by
    unfold residualSq
    rw [hdecomp, Matrix.add_dotProduct, Matrix.dotProduct_add,
      Matrix.dotProduct_add, hcross, hcross2]
    ring
  rw [hexpand]
  exact le_add_of_nonneg_right hnonneg

/-- `np.linalg.lstsq(M, c)[0]`, the least-squares solver of the external
dense-array substrate (spec section 6), modelled from its contract: it
returns a minimizer of the squared residual `‖M y - c‖²` and never fails,
singular `M` included. -/
noncomputable def lstsq {n : ℕ} (M : Matrix (Fin n) (Fin n) ℚ)
    (c : Fin n → ℚ) : Fin n → ℚ :=
  Classical.choose (lstsq_minimizer_exists M c)

/-- `Quadratic.prox`: `np.linalg.lstsq(np.eye(n) + eta * A, x - eta * b)[0]`. -/
noncomputable def Quadratic.prox {n : ℕ} (q : Quadratic n) (x : Fin n → ℚ)
    (eta : ℚ) : Fin n → ℚ :=
  lstsq (1 + eta • q.A) (x - eta • q.b)

/-- The objective of the proximal map (docstring of the `Prox` interface):
`eta * f(y) + 0.5 * ||y - x||²`, here for `f` a `Quadratic`. -/
def proxObjective {n : ℕ} (q : Quadratic n) (x : Fin n → ℚ) (eta : ℚ)
    (z : Fin n → ℚ) : ℚ :=
  eta * q.eval z + 1/2 * ((z - x) ⬝ᵥ (z - x))

/-- The `BacktrackingLineSearch` policy: hyperparameters `a`, `b`, `t0`
(defaults `0.1`, `0.9`, `1e-12`). -/
structure BacktrackingLineSearch where
  a : ℚ
  b : ℚ
  t0 : ℚ

/-- One Armijo sufficient-decrease test of `BacktrackingLineSearch`:
`objective(x - t*direction) < score + difference` where
`score = objective(x)` and
`difference = a * objective_gradient(x).dot(-direction)` (both are
computed from `x` only and do not change between loop iterations). -/
def BacktrackingLineSearch.accepts {n : ℕ} (p : BacktrackingLineSearch)
    (x direction : Fin n → ℚ) (objective : (Fin n → ℚ) → ℚ)
    (objective_gradient : (Fin n → ℚ) → Fin n → ℚ) (t : ℚ) : Prop :=
  objective (fun i => x i - t * direction i) <
    objective x + p.a * (objective_gradient x ⬝ᵥ fun i => -direction i)

instance {n : ℕ} (p : BacktrackingLineSearch) (x direction : Fin n → ℚ)
    (objective : (Fin n → ℚ) → ℚ)
    (objective_gradient : (Fin n → ℚ) → Fin n → ℚ) :
    DecidablePred (p.accepts x direction objective objective_gradient) :=
  fun _ => inferInstanceAs (Decidable (_ < _))

/-- The `while True` loop of `BacktrackingLineSearch.learning_rate`,
written with an explicit iteration bound `fuel` (the loop multiplies `t`
by `b` each pass, so a bound making `b ^ fuel` fall below `t0` suffices;
see `bls_fuel`): return `t` as soon as the sufficient-decrease test
accepts it, otherwise return `t` once it has fallen below the floor `t0`,
otherwise shrink `t` to `b * t` and repeat. -/
def bls_loop (t0 b : ℚ) (accepts : ℚ → Prop) [DecidablePred accepts] :
    ℕ → ℚ → ℚ
  | 0, t => t
  | fuel + 1, t =>
    if accepts t then t
    else if t < t0 then t
    else bls_loop t0 b accepts fuel (b * t)

/-- An iteration bound for `bls_loop` starting from `t = 1`: one more than
the first exponent `k` with `b ^ k < t0` (such a `k` exists whenever
`0 < t0` and `b < 1`). -/
def bls_fuel (t0 b : ℚ) : ℕ :=
  if h : 0 < t0 ∧ b < 1 then Nat.find (exists_pow_lt_of_lt_one h.1 h.2) + 1
  else 1

/-- `BacktrackingLineSearch.learning_rate`: `t = 1.0`;
`score = objective(x)`; `gradient = objective_gradient(x)`; then the
shrink loop of `bls_loop`. -/
def BacktrackingLineSearch.learning_rate {n : ℕ} (p : BacktrackingLineSearch)
    (x direction : Fin n → ℚ) (objective : (Fin n → ℚ) → ℚ)
    (objective_gradient : (Fin n → ℚ) → Fin n → ℚ) : ℚ :=
  bls_loop p.t0 p.b (p.accepts x direction objective objective_gradient)
    (bls_fuel p.t0 p.b) 1

/-- The `AdaptiveGradient` policy state: the mutable per-coordinate
accumulator `weights` together with the fixed `multiplier`. -/
structure AdaptiveGradient (n : ℕ) where
  weights : Fin n → ℚ
  multiplier : ℚ

/-- `AdaptiveGradient.__init__`: `weights = smoothing` (a scalar, which
numpy broadcasts over the direction's shape on the first `+=`), modelled
as the constant vector. -/
def AdaptiveGradient.init (n : ℕ) (multiplier smoothing : ℚ) :
    AdaptiveGradient n :=
  ⟨fun _ => smoothing, multiplier⟩

/-- The state mutation of `AdaptiveGradient.learning_rate`:
`self.weights += direction ** 2`. -/
def AdaptiveGradient.step {n : ℕ} (s : AdaptiveGradient n)
    (direction : Fin n → ℚ) : AdaptiveGradient n :=
  ⟨fun i => s.weights i + direction i ^ 2, s.multiplier⟩

/-- The value returned by `AdaptiveGradient.learning_rate` in a given
state: `multiplier / np.sqrt(weights)`, elementwise (real-valued because
of the square root). -/
noncomputable def AdaptiveGradient.rate {n : ℕ} (s : AdaptiveGradient n) :
    Fin n → ℝ :=
  fun i => (s.multiplier : ℝ) / Real.sqrt ((s.weights i : ℝ))

/-- `AdaptiveGradient.learning_rate`: first accumulate `direction ** 2`
into `weights`, then return `multiplier / np.sqrt(weights)`; modelled as
explicit state passing `(new state, returned step)`. -/
noncomputable def AdaptiveGradient.learning_rate {n : ℕ}
    (s : AdaptiveGradient n) (_x direction : Fin n → ℚ) :
    AdaptiveGradient n × (Fin n → ℝ) :=
  (s.step direction, (s.step direction).rate)

/-- A sequence of `AdaptiveGradient.learning_rate` calls, tracked through
the accumulator state only. -/
def AdaptiveGradient.run {n : ℕ} (s : AdaptiveGradient n)
    (directions : List (Fin n → ℚ)) : AdaptiveGradient n :=
  directions.foldl AdaptiveGradient.step s

/-! ## Theorems -/

theorem residualSq_nonneg {n : ℕ} (M : Matrix (Fin n) (Fin n) ℚ)
    (c y : Fin n → ℚ) : 0 ≤ residualSq M c y := by
  unfold residualSq Matrix.dotProduct
  exact Finset.sum_nonneg fun i _ => mul_self_nonneg _

theorem bls_loop_zero (t0 b : ℚ) (accepts : ℚ → Prop) [DecidablePred accepts]
    (t : ℚ) : bls_loop t0 b accepts 0 t = t := rfl

theorem bls_loop_succ (t0 b : ℚ) (accepts : ℚ → Prop) [DecidablePred accepts]
    (fuel : ℕ) (t : ℚ) :
    bls_loop t0 b accepts (fuel + 1) t =
      if accepts t then t
      else if t < t0 then t
      else bls_loop t0 b accepts fuel (b * t) := rfl

theorem bls_loop_pos (t0 b : ℚ) (accepts : ℚ → Prop) [DecidablePred accepts]
    (hb : 0 < b) : ∀ (fuel : ℕ) (t : ℚ), 0 < t →
      0 < bls_loop t0 b accepts fuel t := by
  intro fuel
  induction fuel with
  | zero => intro t ht; rwa [bls_loop_zero]
  | succ f ih =>
    intro t ht
    rw [bls_loop_succ]
    split_ifs with h1 h2
    · exact ht
    · exact ht
    · exact ih (b * t) (mul_pos hb ht)

theorem bls_loop_le_one (t0 b : ℚ) (accepts : ℚ → Prop)
    [DecidablePred accepts] (hb : 0 < b) (hb1 : b ≤ 1) :
    ∀ (fuel : ℕ) (t : ℚ), 0 < t → t ≤ 1 →
      bls_loop t0 b accepts fuel t ≤ 1 := by
  intro fuel
  induction fuel with
  | zero => intro t _ ht1; rwa [bls_loop_zero]
  | succ f ih =>
    intro t ht ht1
    rw [bls_loop_succ]
    split_ifs with h1 h2
    · exact ht1
    · exact ht1
    · refine ih (b * t) (mul_pos hb ht) ?_
      calc b * t ≤ 1 * t := mul_le_mul_of_nonneg_right hb1 ht.le
      _ = t := one_mul t
      _ ≤ 1 := ht1

theorem bls_loop_exits (t0 b : ℚ) (accepts : ℚ → Prop)
    [DecidablePred accepts] (hb : 0 < b) :
    ∀ (f : ℕ) (t : ℚ), 0 < t → b ^ f * t < t0 →
      accepts (bls_loop t0 b accepts (f + 1) t) ∨
        bls_loop t0 b accepts (f + 1) t < t0 := by
  intro f
  induction f with
  | zero =>
    intro t ht hlt
    rw [pow_zero, one_mul] at hlt
    rw [bls_loop_succ]
    by_cases h1 : accepts t
    · rw [if_pos h1]
      exact Or.inl h1
    · rw [if_neg h1, if_pos hlt]
      exact Or.inr hlt
  | succ f ih =>
    intro t ht hlt
    rw [bls_loop_succ]
    by_cases h1 : accepts t
    · rw [if_pos h1]
      exact Or.inl h1
    · rw [if_neg h1]
      by_cases h2 : t < t0
      · rw [if_pos h2]
        exact Or.inr h2
      · rw [if_neg h2]
        refine ih (b * t) (mul_pos hb ht) ?_
        calc b ^ f * (b * t) = b ^ (f + 1) * t := by ring
        _ < t0 := hlt

theorem weights_le_run {n : ℕ} (t : AdaptiveGradient n)
    (es : List (Fin n → ℚ)) (i : Fin n) :
    t.weights i ≤ (t.run es).weights i := by
  induction es generalizing t with
  | nil => exact le_refl _
  | cons d es ih =>
    refine le_trans ?_ (ih (t.step d))
    exact le_add_of_nonneg_right (sq_nonneg _)

/-- C6: for a Separable built from components `[f1, f2]` sharing a common
domain, `evaluate`, `gradient` and `hessian` at any `x` are the sums of
the components' respective values at `x`. -/
theorem separable_two_components {n : ℕ} (f1 f2 : Func n) (x : Fin n → ℚ) :
    Separable.eval [f1, f2] x = f1.eval x + f2.eval x ∧
    Separable.gradient [f1, f2] x = f1.gradient x + f2.gradient x ∧
    Separable.hessian [f1, f2] x = f1.hessian x + f2.hessian x := by
  refine ⟨?_, ?_, ?_⟩ <;>
    simp [Separable.eval, Separable.gradient, Separable.hessian]

/-- C8: `Composition.hessian` and `L1Norm.hessian` fail with an explicit
unsupported-operation error (`NotImplementedError`, with the source's
messages) rather than returning any value; the error value is the
function's result, so it reaches the immediate caller uncaught. -/
theorem hessian_not_implemented {p m n : ℕ} (outer : Affine p m)
    (inner : Affine m n) (x : Fin n → ℚ) :
    (∀ H, Composition.hessian outer inner x ≠ Except.ok H) ∧
    (∀ H, L1Norm.hessian x ≠ Except.ok H) ∧
    Composition.hessian outer inner x = Except.error "TODO" ∧
    L1Norm.hessian x = Except.error "Hessian not defined" :=
  ⟨fun H h => by simp [Composition.hessian] at h,
   fun H h => by simp [L1Norm.hessian] at h, rfl, rfl⟩

/-- C10: `SquaredL2Norm(A, b)` constructs a Quadratic with matrix `AᵀA`,
linear term `-Aᵀb` and constant `0.5·bᵀb`, and its evaluation at any `x`
equals `0.5‖Ax - b‖²`. -/
theorem squaredL2Norm_spec {m n : ℕ} (A : Matrix (Fin m) (Fin n) ℚ)
    (b : Fin m → ℚ) (x : Fin n → ℚ) :
    (SquaredL2Norm A b).A = A.transpose * A ∧
    (SquaredL2Norm A b).b = -(A.transpose.mulVec b) ∧
    (SquaredL2Norm A b).eval x =
      1/2 * ((A.mulVec x - b) ⬝ᵥ (A.mulVec x - b)) := by
  refine ⟨rfl, ?_, ?_⟩
  · show -(Matrix.vecMul b A) = -(A.transpose.mulVec b)
    rw [Matrix.mulVec_transpose]
  · show 1/2 * (Matrix.vecMul x (A.transpose * A) ⬝ᵥ x) +
        (-(Matrix.vecMul b A)) ⬝ᵥ x + 1/2 * (b ⬝ᵥ b) = _
    have h1 : Matrix.vecMul x (A.transpose * A) ⬝ᵥ x =
        A.mulVec x ⬝ᵥ A.mulVec x := by
      rw [← Matrix.vecMul_vecMul, Matrix.vecMul_transpose,
        ← Matrix.dotProduct_mulVec]
    have h2 : (-(Matrix.vecMul b A)) ⬝ᵥ x = -(b ⬝ᵥ A.mulVec x) := by
      rw [Matrix.neg_dotProduct, ← Matrix.dotProduct_mulVec]
    rw [h1, h2, Matrix.sub_dotProduct, Matrix.dotProduct_sub,
      Matrix.dotProduct_sub, Matrix.dotProduct_comm b (A.mulVec x)]
    ring

theorem comp_gradient_transpose {p m n : ℕ} (outer : Affine p m)
    (inner : Affine m n) (x : Fin n → ℚ) :
    Composition.gradient outer inner x = (outer.A * inner.A).transpose := by
  simp [Composition.gradient, Affine.gradient, Matrix.transpose_transpose]

/-- C2 counterexample: with the single outer affine function
`y ↦ [[0,1],[0,0]]·y` and the single inner affine function `x ↦ I·x`,
`Composition.gradient` is the transpose of `A.dot(B)`, which differs from
`A.dot(B)` at entry `(0, 1)`; so `gradient(x) == A.dot(B)` fails. -/
theorem composition_gradient_counterexample :
    Composition.gradient (Affine.mk !![0, 1; 0, 0] ![0, 0])
        (Affine.mk (1 : Matrix (Fin 2) (Fin 2) ℚ) ![0, 0]) ![0, 0] ≠
      !![0, 1; 0, 0] * (1 : Matrix (Fin 2) (Fin 2) ℚ) := by
  intro h
  rw [comp_gradient_transpose, Matrix.mul_one] at h
  have h2 := congrFun (congrFun h 0) 1
  simp [Matrix.transpose_apply] at h2

/-- C2 (amended): for one outer affine function `y ↦ A·y + b1` and one
inner affine function `x ↦ B·x + b2`, `Composition.gradient(x)` equals the
TRANSPOSE of the matrix product `A.dot(B)` for every `x` (the code returns
`(G.dot(H)).T`); it coincides with `A.dot(B)` only when that product is
symmetric. -/
theorem composition_gradient_affine_chain {p m n : ℕ} (outer : Affine p m)
    (inner : Affine m n) (x : Fin n → ℚ) :
    Composition.gradient outer inner x = (outer.A * inner.A).transpose :=
  comp_gradient_transpose outer inner x

/-- C9: the AdaptiveGradient accumulator `weights` is monotonically
non-decreasing in every coordinate across any sequence of
`learning_rate` calls: each call adds `direction²` elementwise and the
accumulator is never reset or decayed. -/
theorem adaptive_gradient_accumulator_monotone {n : ℕ}
    (s : AdaptiveGradient n) (ds es : List (Fin n → ℚ)) (i : Fin n) :
    (s.run ds).weights i ≤ (s.run (ds ++ es)).weights i := by
  have h : s.run (ds ++ es) = (s.run ds).run es := by
    simp [AdaptiveGradient.run, List.foldl_append]
  rw [h]
  exact weights_le_run _ es i

/-- C7: `L1Norm.prox(x, eta)` is the elementwise soft-threshold operator
(shrink toward zero by `eta`, clamping to zero inside `[-eta, eta]`);
in particular for `x = [3, -3, 0.5]` and `eta = 1` it returns
`[2, -2, 0]`. -/
theorem l1norm_prox_soft_threshold :
    (∀ (n : ℕ) (x : Fin n → ℚ) (eta : ℚ), 0 < eta → ∀ i,
        L1Norm.prox x eta i =
          if eta < x i then x i - eta
          else if x i < -eta then x i + eta else 0) ∧
    L1Norm.prox ![3, -3, 1/2] 1 = ![2, -2, 0] := by
  constructor
  · intro n x eta heta i
    show max (x i - eta) 0 - max (-x i - eta) 0 = _
    split_ifs with h1 h2
    · rw [max_eq_left (by linarith), max_eq_right (by linarith)]
      ring
    · rw [max_eq_right (by linarith), max_eq_left (by linarith)]
      ring
    · rw [max_eq_right (by linarith), max_eq_right (by linarith)]
      ring
  · funext i
    fin_cases i <;> simp [L1Norm.prox] <;> norm_num

/-- C7 witness: the soft-threshold characterization applied at the
concrete input `x = [5]`, `eta = 2`. -/
theorem l1norm_prox_soft_threshold_witness : L1Norm.prox ![(5 : ℚ)] 2 0 = 3 := by
  have h := l1norm_prox_soft_threshold.1 1 ![(5 : ℚ)] 2 (by norm_num) 0
  norm_num at h
  exact h

/-- C1 (failing input): for `f(x) = 0.5·x²` (a `Quadratic` with
`A = [[1]]`, `b = [0]`, `c = 0`) and `x0 = [1]`, the model returned by
`quadratic_approx(f, x0)` has `model.evaluate(x0) = 2 ≠ 0.5 = f.evaluate(x0)`
and `model.gradient(x0) = [2] ≠ [1] = f.gradient(x0)`: `Quadratic(H, g, c)`
is not centered at `x0`, contradicting the function's own docstring
`f(x) + g'(y-x) + 0.5(y-x)'H(y-x)`. -/
theorem quadratic_approx_failing_input :
    (quadratic_approx (Quadratic.toFunc ⟨!![1], ![0], 0⟩) ![1]).eval ![1] = 2 ∧
    (Quadratic.mk !![1] ![0] 0).eval ![1] = 1/2 ∧
    (quadratic_approx (Quadratic.toFunc ⟨!![1], ![0], 0⟩) ![1]).gradient ![1]
      = ![2] ∧
    (Quadratic.mk !![1] ![0] 0).gradient ![1] = ![1] := by
  refine ⟨?_, ?_, funext fun i => ?_, funext fun i => ?_⟩
  · norm_num [quadratic_approx, Quadratic.toFunc, Quadratic.eval,
      Quadratic.gradient, Quadratic.hessian, Matrix.vecMul, Matrix.mulVec,
      Matrix.dotProduct, Fin.sum_univ_one, Matrix.vecHead, Function.comp]
  · norm_num [Quadratic.eval, Matrix.vecMul, Matrix.dotProduct,
      Fin.sum_univ_one]
  · fin_cases i
    norm_num [quadratic_approx, Quadratic.toFunc, Quadratic.eval,
      Quadratic.gradient, Quadratic.hessian, Matrix.vecMul, Matrix.mulVec,
      Matrix.dotProduct, Fin.sum_univ_one, Matrix.vecHead, Function.comp]
  · fin_cases i
    norm_num [Quadratic.gradient, Matrix.mulVec, Matrix.dotProduct,
      Fin.sum_univ_one]

/-- C3: for every starting point, direction, objective and gradient
evaluator, and hyperparameters `a > 0`, `0 < b < 1`, `t0 > 0`,
`BacktrackingLineSearch.learning_rate` terminates with a step in `(0, 1]`
that either satisfies the sufficient-decrease condition
`objective(x - t·direction) < objective(x) + a·gradient(x)·(-direction)`,
or is the value returned once `t` has fallen below the floor `t0`
(a return, not an error). -/
theorem backtracking_line_search_spec {n : ℕ} (p : BacktrackingLineSearch)
    (x direction : Fin n → ℚ) (objective : (Fin n → ℚ) → ℚ)
    (objective_gradient : (Fin n → ℚ) → Fin n → ℚ)
    (_ha : 0 < p.a) (hb0 : 0 < p.b) (hb1 : p.b < 1) (ht0 : 0 < p.t0) :
    0 < p.learning_rate x direction objective objective_gradient ∧
    p.learning_rate x direction objective objective_gradient ≤ 1 ∧
    (p.accepts x direction objective objective_gradient
        (p.learning_rate x direction objective objective_gradient) ∨
      p.learning_rate x direction objective objective_gradient < p.t0) := by
  unfold BacktrackingLineSearch.learning_rate
  refine ⟨bls_loop_pos _ _ _ hb0 _ 1 one_pos,
    bls_loop_le_one _ _ _ hb0 hb1.le _ 1 one_pos le_rfl, ?_⟩
  have hfuel : bls_fuel p.t0 p.b =
      Nat.find (exists_pow_lt_of_lt_one ht0 hb1) + 1 := by
    unfold bls_fuel
    rw [dif_pos (⟨ht0, hb1⟩ : 0 < p.t0 ∧ p.b < 1)]
  rw [hfuel]
  refine bls_loop_exits _ _ _ hb0 _ 1 one_pos ?_
  simpa using Nat.find_spec (exists_pow_lt_of_lt_one ht0 hb1)

/-- C3 witness: the line-search guarantee instantiated at the objective
`f(v) = v·v` with `x = [2]`, `direction = [4]`, `a = 1/10`, `b = 9/10`,
`t0 = 1/2`. -/
theorem backtracking_line_search_spec_witness :
    0 < BacktrackingLineSearch.learning_rate ⟨1/10, 9/10, 1/2⟩ ![(2 : ℚ)]
        ![4] (fun v => v 0 * v 0) (fun v => ![2 * v 0]) ∧
    BacktrackingLineSearch.learning_rate ⟨1/10, 9/10, 1/2⟩ ![(2 : ℚ)]
        ![4] (fun v => v 0 * v 0) (fun v => ![2 * v 0]) ≤ 1 ∧
    (BacktrackingLineSearch.accepts ⟨1/10, 9/10, 1/2⟩ ![(2 : ℚ)] ![4]
        (fun v => v 0 * v 0) (fun v => ![2 * v 0])
        (BacktrackingLineSearch.learning_rate ⟨1/10, 9/10, 1/2⟩ ![(2 : ℚ)]
          ![4] (fun v => v 0 * v 0) (fun v => ![2 * v 0])) ∨
      BacktrackingLineSearch.learning_rate ⟨1/10, 9/10, 1/2⟩ ![(2 : ℚ)]
        ![4] (fun v => v 0 * v 0) (fun v => ![2 * v 0]) < 1/2) :=
  backtracking_line_search_spec ⟨1/10, 9/10, 1/2⟩ ![(2 : ℚ)] ![4]
    (fun v => v 0 * v 0) (fun v => ![2 * v 0])
    (by norm_num) (by norm_num) (by norm_num) (by norm_num)

/-- C4 counterexample: for a fresh AdaptiveGradient (multiplier 1,
smoothing 1/10) and the zero direction, two successive `learning_rate`
calls return equal steps, so the second is not strictly smaller. -/
theorem adaptive_gradient_counterexample :
    ¬ (∀ i, (((AdaptiveGradient.init 1 1 (1/10)).learning_rate (fun _ => 0)
          (fun _ => 0)).1.learning_rate (fun _ => 0) (fun _ => 0)).2 i <
        ((AdaptiveGradient.init 1 1 (1/10)).learning_rate (fun _ => 0)
          (fun _ => 0)).2 i) := by
  intro h
  have h0 := h 0
  simp [AdaptiveGradient.learning_rate, AdaptiveGradient.step,
    AdaptiveGradient.rate, AdaptiveGradient.init] at h0

/-- C4 (amended): for an AdaptiveGradient state with positive multiplier,
nonnegative accumulator entries (as produced by a nonnegative smoothing),
and a direction all of whose coordinates are nonzero, two successive
`learning_rate` calls with that same direction yield a second step that is
strictly smaller than the first in every coordinate. (As stated the claim
fails: a zero direction leaves the accumulator, hence the step,
unchanged.) -/
theorem adaptive_gradient_strict_decrease {n : ℕ} (s : AdaptiveGradient n)
    (x1 x2 d : Fin n → ℚ) (hm : 0 < s.multiplier)
    (hw : ∀ j, 0 ≤ s.weights j) (hd : ∀ j, d j ≠ 0) (i : Fin n) :
    ((s.learning_rate x1 d).1.learning_rate x2 d).2 i <
      (s.learning_rate x1 d).2 i := by
  show ((s.step d).step d).rate i < (s.step d).rate i
  simp only [AdaptiveGradient.step, AdaptiveGradient.rate]
  have hd2 : (0 : ℚ) < d i ^ 2 :=
    lt_of_le_of_ne (sq_nonneg _) (Ne.symm (pow_ne_zero 2 (hd i)))
  have hw1 : (0 : ℚ) < s.weights i + d i ^ 2 :=
    add_pos_of_nonneg_of_pos (hw i) hd2
  have hw2 : s.weights i + d i ^ 2 < s.weights i + d i ^ 2 + d i ^ 2 :=
    lt_add_of_pos_right _ hd2
  have hc1 : (0 : ℝ) < ((s.weights i + d i ^ 2 : ℚ) : ℝ) := by
    exact_mod_cast hw1
  have hc2 : ((s.weights i + d i ^ 2 : ℚ) : ℝ) <
      ((s.weights i + d i ^ 2 + d i ^ 2 : ℚ) : ℝ) := by exact_mod_cast hw2
  have hs : Real.sqrt ((s.weights i + d i ^ 2 : ℚ) : ℝ) <
      Real.sqrt ((s.weights i + d i ^ 2 + d i ^ 2 : ℚ) : ℝ) :=
    Real.sqrt_lt_sqrt hc1.le hc2
  have hs1 : (0 : ℝ) < Real.sqrt ((s.weights i + d i ^ 2 : ℚ) : ℝ) :=
    Real.sqrt_pos.mpr hc1
  have hs2 : (0 : ℝ) <
      Real.sqrt ((s.weights i + d i ^ 2 + d i ^ 2 : ℚ) : ℝ) :=
    lt_trans hs1 hs
  have hmR : (0 : ℝ) < (s.multiplier : ℝ) := by exact_mod_cast hm
  exact (div_lt_div_iff_of_pos_left hmR hs2 hs1).mpr hs

/-- C4 witness: the amended strict-decrease statement at the concrete
instance multiplier 1, smoothing 1/10, direction `[1]`, coordinate 0. -/
theorem adaptive_gradient_strict_decrease_witness :
    (((AdaptiveGradient.init 1 1 (1/10)).learning_rate (fun _ => 0)
        (fun _ => 1)).1.learning_rate (fun _ => 0) (fun _ => 1)).2 0 <
      ((AdaptiveGradient.init 1 1 (1/10)).learning_rate (fun _ => 0)
        (fun _ => 1)).2 0 :=
  adaptive_gradient_strict_decrease (AdaptiveGradient.init 1 1 (1/10))
    (fun _ => 0) (fun _ => 0) (fun _ => 1)
    (by norm_num [AdaptiveGradient.init])
    (fun j => by norm_num [AdaptiveGradient.init])
    (fun j => by norm_num) 0

theorem dot_self_nonneg {n : ℕ} (v : Fin n → ℚ) : 0 ≤ v ⬝ᵥ v := by
  unfold Matrix.dotProduct
  exact Finset.sum_nonneg fun i _ => mul_self_nonneg _

theorem prox_objective_optimal {n : ℕ} (q : Quadratic n) (x : Fin n → ℚ)
    (eta : ℚ) (hsym : q.A.transpose = q.A)
    (hpsd : ∀ v, 0 ≤ v ⬝ᵥ q.A.mulVec v) (heta : 0 ≤ eta) (y : Fin n → ℚ)
    (hy : (1 + eta • q.A).mulVec y = x - eta • q.b) (z : Fin n → ℚ) :
    proxObjective q x eta y ≤ proxObjective q x eta z := by
  set w := z - y with hw
  have hzw : z = y + w := by rw [hw]; abel
  have hswap : w ⬝ᵥ q.A.mulVec y = y ⬝ᵥ q.A.mulVec w := by
    rw [Matrix.dotProduct_mulVec, ← Matrix.mulVec_transpose, hsym,
      Matrix.dotProduct_comm]
  have hswap2 : q.A.mulVec y ⬝ᵥ w = y ⬝ᵥ q.A.mulVec w := by
    rw [Matrix.dotProduct_comm]
    exact hswap
  have hlin : w ⬝ᵥ y + eta * (w ⬝ᵥ q.A.mulVec y) =
      w ⬝ᵥ x - eta * (w ⬝ᵥ q.b) := by
    have h1 : w ⬝ᵥ ((1 + eta • q.A).mulVec y) = w ⬝ᵥ (x - eta • q.b) := by
      rw [hy]
    rw [Matrix.add_mulVec, Matrix.one_mulVec, Matrix.smul_mulVec_assoc,
      Matrix.dotProduct_add, Matrix.dotProduct_smul, Matrix.dotProduct_sub,
      Matrix.dotProduct_smul, smul_eq_mul, smul_eq_mul] at h1
    exact h1
  have hexp : proxObjective q x eta z = proxObjective q x eta y
      + (w ⬝ᵥ y + eta * (w ⬝ᵥ q.A.mulVec y) - w ⬝ᵥ x + eta * (w ⬝ᵥ q.b))
      + 1/2 * (eta * (w ⬝ᵥ q.A.mulVec w) + w ⬝ᵥ w) := by
    rw [hzw]
    unfold proxObjective Quadratic.eval
    rw [← Matrix.dotProduct_mulVec, ← Matrix.dotProduct_mulVec]
    simp only [Matrix.mulVec_add, Matrix.dotProduct_add,
      Matrix.add_dotProduct, Matrix.dotProduct_sub, Matrix.sub_dotProduct,
      hswap, hswap2, Matrix.dotProduct_comm]
    ring
  have h2 : 0 ≤ eta * (w ⬝ᵥ q.A.mulVec w) := mul_nonneg heta (hpsd w)
  have h3 : 0 ≤ w ⬝ᵥ w := dot_self_nonneg w
  rw [hexp]
  linarith [hlin]

/-- C5: `Quadratic.prox(x, eta)` solves `(I + eta·A) y = x - eta·b`
whenever `I + eta·A` is nonsingular (for symmetric positive-semidefinite
`A` and `eta ≥ 0` this solution equivalently minimizes
`eta·f(y) + 0.5·||y - x||²`); in every case (singular included) it returns
a least-squares solution of that system rather than failing, unlike
`Quadratic.solution`, which propagates the linear-solve failure of a
singular `A` (modelled as `none`). -/
theorem quadratic_prox_spec {n : ℕ} (q : Quadratic n) (x : Fin n → ℚ)
    (eta : ℚ) :
    (IsUnit (1 + eta • q.A).det →
      (1 + eta • q.A).mulVec (q.prox x eta) = x - eta • q.b) ∧
    (∀ z, residualSq (1 + eta • q.A) (x - eta • q.b) (q.prox x eta) ≤
      residualSq (1 + eta • q.A) (x - eta • q.b) z) ∧
    (¬ IsUnit q.A.det → q.solution = none) ∧
    (q.A.transpose = q.A → (∀ v, 0 ≤ v ⬝ᵥ q.A.mulVec v) → 0 ≤ eta →
      IsUnit (1 + eta • q.A).det →
      ∀ z, proxObjective q x eta (q.prox x eta) ≤ proxObjective q x eta z) := by
  have hmin := Classical.choose_spec
    (lstsq_minimizer_exists (1 + eta • q.A) (x - eta • q.b))
  have hsolve : IsUnit (1 + eta • q.A).det →
      (1 + eta • q.A).mulVec (q.prox x eta) = x - eta • q.b := by
    intro hdet
    have hz : residualSq (1 + eta • q.A) (x - eta • q.b)
        ((1 + eta • q.A)⁻¹.mulVec (x - eta • q.b)) = 0 := by
      unfold residualSq
      rw [Matrix.mulVec_mulVec, Matrix.mul_nonsing_inv _ hdet,
        Matrix.one_mulVec, sub_self, Matrix.zero_dotProduct]
    have h1 : residualSq (1 + eta • q.A) (x - eta • q.b) (q.prox x eta) ≤ 0 :=
      hz ▸ hmin ((1 + eta • q.A)⁻¹.mulVec (x - eta • q.b))
    have h0 : residualSq (1 + eta • q.A) (x - eta • q.b) (q.prox x eta) = 0 :=
      le_antisymm h1 (residualSq_nonneg _ _ _)
    unfold residualSq at h0
    exact sub_eq_zero.mp (Matrix.dotProduct_self_eq_zero.mp h0)
  refine ⟨hsolve, hmin, ?_, ?_⟩
  · intro hdet
    have hz : q.A.det = 0 := by
      by_contra hne
      exact hdet (isUnit_iff_ne_zero.mpr hne)
    unfold Quadratic.solution
    rw [if_pos hz]
  · intro hsym hpsd heta hdet z
    exact prox_objective_optimal q x eta hsym hpsd heta _ (hsolve hdet) z

/-- C5 witness: the nonsingular branch at `A = [[1]]`, `b = [0]`,
`x = [3]`, `eta = 1`, where `I + eta·A = [[2]]` is invertible. -/
theorem quadratic_prox_spec_witness :
    (1 + (1 : ℚ) • (!![1] : Matrix (Fin 1) (Fin 1) ℚ)).mulVec
        (Quadratic.prox ⟨!![1], ![0], 0⟩ ![3] 1) = ![3] - (1 : ℚ) • ![0] :=
  (quadratic_prox_spec ⟨!![1], ![0], 0⟩ ![3] 1).1 (by
    refine isUnit_iff_ne_zero.mpr ?_
    rw [Matrix.det_fin_one]
    norm_num [Matrix.add_apply, Matrix.one_apply, Matrix.smul_apply])

end Yannopt
